import Mathlib

/-!
# RealTime-CodeEditor: the room registry and broadcast relay of `backend/server.js`

A shallow embedding of the server side of the collaborative editor.

* A JavaScript `Map` is an association list in insertion order (`mapGet`, `mapHas`,
  `mapSet`, `mapDelete`); a well-formed map has pairwise distinct keys (`mapWF`).
* Connection identifiers (`socket.id`) and room identifiers are strings.
* Values chosen by a client (document, language, cursor, chat text, participant info) are
  `Payload`s: a primitive, or an object whose properties hold primitives.
* `new Date()` is the handler's `now` argument (milliseconds, an integer); `uuidv4()` is the
  handler's `uuid` argument.
* The Socket.IO layer is the table `sockets`: every connected socket with its `socket.rooms`
  set. `socket.emit`, `socket.to(r).emit` and `io.to(r).emit` become lists of deliveries
  `(receiver, event)`; the order of the deliveries of one emission is not observable, the
  order of two emissions is.
* A handler returns an `Outcome`: the new state, the deliveries, the one-shot timers it armed
  and whether it ended in a `TypeError`.
* Every handler reads `socket.rooms` from the table as it stands when the handler starts.
  Socket.IO leaves every room and drops the socket before it emits `disconnect`, so the
  `disconnect` handler starts with an empty `socket.rooms`.
* `console.log` writes a line built from connection and room identifiers; both are strings
  here, so building the line cannot throw, and the line is not part of the state.
* Handlers run to completion one after the other (one thread, no `await`), so a room object
  held in `rooms` is a value stored under its key.
-/

namespace RealTimeCodeEditor

/-! ## Client-chosen values -/

/-- A JavaScript primitive as it arrives in an event payload. -/
inductive Atom where
  | undefined
  | null
  | bool (b : Bool)
  | num (n : Int)
  | str (s : String)
  deriving DecidableEq, Repr

/-- A value of an event payload: a primitive or an object with primitive properties,
in property order. -/
inductive Payload where
  | atom (a : Atom)
  | obj (props : List (String × Atom))
  deriving DecidableEq, Repr

/-- JavaScript truthiness of a primitive, as tested by `||`. -/
def Atom.truthy : Atom → Bool
  | .undefined => false
  | .null => false
  | .bool b => b
  | .num n => n != 0
  | .str s => s != ""

/-- The value of `a || b` for primitives. -/
def Atom.orElse (a b : Atom) : Atom :=
  if a.truthy then a else b

/-- Property lookup in a property list; a missing property reads as `undefined`. -/
def propGet : List (String × Atom) → String → Atom
  | [], _ => .undefined
  | (k, v) :: rest, key => if k = key then v else propGet rest key

/-- The value of `v.key`: reading a property of `undefined` or `null` throws a `TypeError`
(`none`); a primitive has none of the properties the server reads. -/
def Payload.prop (v : Payload) (key : String) : Option Atom :=
  match v with
  | .atom .undefined => none
  | .atom .null => none
  | .atom _ => some .undefined
  | .obj props => some (propGet props key)

/-! ## JavaScript `Map` -/

/-- The value of `m.get(k)`. -/
def mapGet {β : Type} : List (String × β) → String → Option β
  | [], _ => none
  | (k, v) :: rest, key => if k = key then some v else mapGet rest key

/-- The value of `m.has(k)`. -/
def mapHas {β : Type} (m : List (String × β)) (key : String) : Bool :=
  (mapGet m key).isSome

/-- Replace the value stored under an existing key, keeping its position. -/
def mapReplace {β : Type} : List (String × β) → String → β → List (String × β)
  | [], _, _ => []
  | (k, v) :: rest, key, val =>
    if k = key then (k, val) :: rest else (k, v) :: mapReplace rest key val

/-- The map after `m.set(k, v)`: an existing key keeps its position, a new key goes last. -/
def mapSet {β : Type} (m : List (String × β)) (key : String) (val : β) : List (String × β) :=
  if mapHas m key then mapReplace m key val else m ++ [(key, val)]

/-- The map after `m.delete(k)`. -/
def mapDelete {β : Type} (m : List (String × β)) (key : String) : List (String × β) :=
  m.filter (fun e => e.1 ≠ key)

/-- The keys of a map, in insertion order. -/
def mapKeys {β : Type} (m : List (String × β)) : List String :=
  m.map Prod.fst

/-- The values of a map, in insertion order: `Array.from(m.values())`. -/
def mapValues {β : Type} (m : List (String × β)) : List β :=
  m.map Prod.snd

/-- A `Map` holds every key once. -/
def mapWF {β : Type} (m : List (String × β)) : Prop :=
  (mapKeys m).Nodup

/-! ## The `Room` class -/

/-- The record `addUser` stores for a connection. -/
structure Participant where
  id : String
  name : Atom
  color : Atom
  joinedAt : Int
  deriving DecidableEq, Repr

/-- The class `Room`. -/
structure Room where
  id : String
  code : Payload
  language : Payload
  users : List (String × Participant)
  cursors : List (String × Payload)
  createdAt : Int
  lastActivity : Int
  deriving DecidableEq, Repr

/-- The document a new room starts with. -/
def defaultCode : String :=
  "// Welcome to the Realtime Collaborative Code Editor!\n// Start typing to see real-time collaboration in action.\n\nfunction hello() \x7b\n    console.log(\"Hello, World!\");\n\x7d\n\nhello();"

/-- The constructor `new Room(id)`. -/
def Room.new (id : String) (now : Int) : Room where
  id := id
  code := .atom (.str defaultCode)
  language := .atom (.str "javascript")
  users := []
  cursors := []
  createdAt := now
  lastActivity := now

/-- The palette of `generateUserColor`. -/
def colors : List String :=
  ["#FF6B6B", "#4ECDC4", "#45B7D1", "#96CEB4",
   "#FFEAA7", "#DDA0DD", "#98D8C8", "#F7DC6F",
   "#BB8FCE", "#85C1E9", "#F8C471", "#82E0AA"]

/-- The method `generateUserColor`: `colors[this.users.size % colors.length]`. -/
def Room.generateUserColor (r : Room) : Atom :=
  match colors.get? (r.users.length % colors.length) with
  | some c => .str c
  | none => .undefined

/-- The method `addUser`. Reading `userData.name` throws when `userData` is `undefined` or
`null`; the throw happens before `users.set`, so the room is then untouched (`none`). -/
def Room.addUser (r : Room) (socketId : String) (userData : Payload) (now : Int) :
    Option Room :=
  match userData.prop "name", userData.prop "color" with
  | some name, some color =>
    some { r with
      users := mapSet r.users socketId
        { id := socketId
          name := name.orElse (.str ("User " ++ toString (r.users.length + 1)))
          color := color.orElse r.generateUserColor
          joinedAt := now }
      lastActivity := now }
  | _, _ => none

/-- The method `removeUser`. -/
def Room.removeUser (r : Room) (socketId : String) (now : Int) : Room :=
  { r with
    users := mapDelete r.users socketId
    cursors := mapDelete r.cursors socketId
    lastActivity := now }

/-- The method `updateCode`. -/
def Room.updateCode (r : Room) (code : Payload) (now : Int) : Room :=
  { r with code := code, lastActivity := now }

/-- The method `updateLanguage`. -/
def Room.updateLanguage (r : Room) (language : Payload) (now : Int) : Room :=
  { r with language := language, lastActivity := now }

/-- The method `updateCursor`. -/
def Room.updateCursor (r : Room) (socketId : String) (cursor : Payload) : Room :=
  if mapHas r.users socketId then
    { r with cursors := mapSet r.cursors socketId cursor }
  else r

/-- The method `getUsersArray`. -/
def Room.getUsersArray (r : Room) : List Participant :=
  mapValues r.users

/-- A property value of an entry of `getCursorsArray`: a primitive, or the participant record
read by `this.users.get(socketId)` (`none` is `undefined`). -/
inductive FieldVal where
  | atom (a : Atom)
  | user (u : Option Participant)
  deriving DecidableEq, Repr

/-- Assigning a property of an object literal: an existing key keeps its place and takes
the new value, a new key goes last. -/
def objSet : List (String × FieldVal) → String → FieldVal → List (String × FieldVal)
  | [], key, val => [(key, val)]
  | (k, v) :: rest, key, val =>
    if k = key then (k, val) :: rest else (k, v) :: objSet rest key val

/-- The own enumerable properties `...cursor` copies: those of an object; the indexed
characters of a string; none for any other primitive. A string is split per code point
here, where JavaScript splits per UTF-16 code unit: the two agree on every string without
characters beyond the Basic Multilingual Plane. -/
def spreadProps : Payload → List (String × Atom)
  | .obj props => props
  | .atom (.str s) => s.toList.enum.map (fun ic => (toString ic.1, Atom.str (String.singleton ic.2)))
  | .atom _ => []

/-- The object literal `{ userId: socketId, user: this.users.get(socketId), ...cursor }`,
as the list of its properties with their final values. The list is in order of first
assignment; the position of a property carries no meaning (JavaScript itself enumerates
integer-like keys first). -/
def cursorEntry (r : Room) (socketId : String) (cursor : Payload) : List (String × FieldVal) :=
  (spreadProps cursor).foldl (fun o kv => objSet o kv.1 (.atom kv.2))
    [("userId", .atom (.str socketId)), ("user", .user (mapGet r.users socketId))]

/-- The method `getCursorsArray`. -/
def Room.getCursorsArray (r : Room) : List (List (String × FieldVal)) :=
  r.cursors.map (fun e => cursorEntry r e.1 e.2)

/-! ## Events sent by the server -/

/-- An event the server emits, with the fields of its payload object. -/
inductive ServerEvent where
  | roomState (code language : Payload) (users : List Participant)
      (cursors : List (List (String × FieldVal)))
  | userJoined (user : Option Participant) (users : List Participant)
  | codeChange (code changes : Payload) (userId : String) (user : Option Participant)
  | languageChange (language : Payload) (userId : String) (user : Option Participant)
  | cursorChange (userId : String) (user : Option Participant) (cursor : Payload)
  | chatMessage (id : String) (message : Payload) (user : Option Participant) (timestamp : Int)
  | userLeft (userId : String) (users : List Participant)
  deriving DecidableEq, Repr

/-! ## Server state -/

/-- The process state: the global `rooms` map and, for every connected socket, its
`socket.rooms` set (which holds the socket's own id from the moment it connects). -/
structure Server where
  rooms : List (String × Room)
  sockets : List (String × List String)
  deriving DecidableEq, Repr

/-- The state at process start. -/
def Server.init : Server where
  rooms := []
  sockets := []

/-- The result of running one handler or callback. -/
structure Outcome where
  state : Server
  sent : List (String × ServerEvent)
  timers : List (Int × String)
  threw : Bool
  deriving DecidableEq, Repr

/-- A handler that returns without touching anything. -/
def Outcome.skip (s : Server) : Outcome where
  state := s
  sent := []
  timers := []
  threw := false

/-- A handler that throws with the state as it is at that point. -/
def Outcome.throwAt (s : Server) : Outcome where
  state := s
  sent := []
  timers := []
  threw := true

/-- The set `socket.rooms` of a connection. -/
def Server.socketRooms (s : Server) (sock : String) : List String :=
  (mapGet s.sockets sock).getD []

/-- The receivers of `io.to(roomId).emit`: every connected socket that is in the room. -/
def Server.inRoom (s : Server) (roomId : String) : List String :=
  (s.sockets.filter (fun e => e.2.contains roomId)).map Prod.fst

/-- The receivers of `socket.to(roomId).emit`: the sockets in the room except the sender. -/
def Server.others (s : Server) (sock roomId : String) : List String :=
  (s.inRoom roomId).filter (fun r => r ≠ sock)

/-- Deliver one event to each of the receivers. -/
def deliver (receivers : List String) (ev : ServerEvent) : List (String × ServerEvent) :=
  receivers.map (fun r => (r, ev))

/-- The state after a room object stored in `rooms` has been mutated in place. -/
def Server.putRoom (s : Server) (roomId : String) (room : Room) : Server :=
  { s with rooms := mapReplace s.rooms roomId room }

/-- The state after `socket.rooms` of a connected socket has changed. -/
def Server.putSocketRooms (s : Server) (sock : String) (rs : List String) : Server :=
  { s with sockets := mapReplace s.sockets sock rs }

/-! ## Client events -/

/-- The payload of `join-room`, destructured as `{ roomId, user }`. -/
structure JoinData where
  roomId : String
  user : Payload
  deriving DecidableEq, Repr

/-- The payload of `code-change`, destructured as `{ roomId, code, changes }`. -/
structure CodeData where
  roomId : String
  code : Payload
  changes : Payload
  deriving DecidableEq, Repr

/-- The payload of `language-change`, destructured as `{ roomId, language }`. -/
structure LanguageData where
  roomId : String
  language : Payload
  deriving DecidableEq, Repr

/-- The payload of `cursor-change`, destructured as `{ roomId, cursor }`. -/
structure CursorData where
  roomId : String
  cursor : Payload
  deriving DecidableEq, Repr

/-- The payload of `chat-message`, destructured as `{ roomId, message }`. -/
structure ChatData where
  roomId : String
  message : Payload
  deriving DecidableEq, Repr

/-- The set `socket.rooms` after the loop that leaves every room but the socket's own and
the following `socket.join(roomId)`. -/
def rejoin (rs : List String) (sock roomId : String) : List String :=
  let kept := rs.filter (fun r => ¬ (r ≠ sock))
  if kept.contains roomId then kept else kept ++ [roomId]

/-- The handler of `join-room`. A payload that is not an object (`none`) makes the
destructuring throw. The closing `console.log` interpolates `socket.id` and `roomId`, two
strings, and changes nothing. -/
def onJoinRoom (s : Server) (sock : String) (now : Int) (data : Option JoinData) : Outcome :=
  match data with
  | none => Outcome.throwAt s
  | some d =>
    let s1 : Server :=
      if ¬ mapHas s.rooms d.roomId then
        { s with rooms := mapSet s.rooms d.roomId (Room.new d.roomId now) }
      else s
    let s2 := s1.putSocketRooms sock (rejoin (s1.socketRooms sock) sock d.roomId)
    match mapGet s1.rooms d.roomId with
    | none => Outcome.throwAt s2
    | some room =>
      match room.addUser sock d.user now with
      | none => Outcome.throwAt s2
      | some room1 =>
        let s3 := s2.putRoom d.roomId room1
        { state := s3
          sent :=
            [(sock, ServerEvent.roomState room1.code room1.language room1.getUsersArray
                room1.getCursorsArray)] ++
            deliver (s3.others sock d.roomId)
              (ServerEvent.userJoined (mapGet room1.users sock) room1.getUsersArray)
          timers := []
          threw := false }

/-- The handler of `code-change`. -/
def onCodeChange (s : Server) (sock : String) (now : Int) (data : Option CodeData) : Outcome :=
  match data with
  | none => Outcome.throwAt s
  | some d =>
    match mapGet s.rooms d.roomId with
    | none => Outcome.skip s
    | some room =>
      if mapHas room.users sock then
        let room1 := room.updateCode d.code now
        let s1 := s.putRoom d.roomId room1
        { state := s1
          sent := deliver (s1.others sock d.roomId)
            (ServerEvent.codeChange d.code d.changes sock (mapGet room1.users sock))
          timers := []
          threw := false }
      else Outcome.skip s

/-- The handler of `language-change`. -/
def onLanguageChange (s : Server) (sock : String) (now : Int) (data : Option LanguageData) :
    Outcome :=
  match data with
  | none => Outcome.throwAt s
  | some d =>
    match mapGet s.rooms d.roomId with
    | none => Outcome.skip s
    | some room =>
      if mapHas room.users sock then
        let room1 := room.updateLanguage d.language now
        let s1 := s.putRoom d.roomId room1
        { state := s1
          sent := deliver (s1.others sock d.roomId)
            (ServerEvent.languageChange d.language sock (mapGet room1.users sock))
          timers := []
          threw := false }
      else Outcome.skip s

/-- The handler of `cursor-change`. -/
def onCursorChange (s : Server) (sock : String) (data : Option CursorData) : Outcome :=
  match data with
  | none => Outcome.throwAt s
  | some d =>
    match mapGet s.rooms d.roomId with
    | none => Outcome.skip s
    | some room =>
      if mapHas room.users sock then
        let room1 := room.updateCursor sock d.cursor
        let s1 := s.putRoom d.roomId room1
        { state := s1
          sent := deliver (s1.others sock d.roomId)
            (ServerEvent.cursorChange sock (mapGet room1.users sock) d.cursor)
          timers := []
          threw := false }
      else Outcome.skip s

/-- The handler of `chat-message`; `uuid` is the value `uuidv4()` returns. -/
def onChatMessage (s : Server) (sock : String) (now : Int) (uuid : String)
    (data : Option ChatData) : Outcome :=
  match data with
  | none => Outcome.throwAt s
  | some d =>
    match mapGet s.rooms d.roomId with
    | none => Outcome.skip s
    | some room =>
      if mapHas room.users sock then
        { state := s
          sent := deliver (s.inRoom d.roomId)
            (ServerEvent.chatMessage uuid d.message (mapGet room.users sock) now)
          timers := []
          threw := false }
      else Outcome.skip s

/-- The delay of the empty-room check, `5 * 60 * 1000` milliseconds. -/
def emptyRoomDelay : Int := 5 * 60 * 1000

/-- The body of the `forEach` of the `disconnect` handler for one entry of `socket.rooms`;
a timer is recorded as the time it is due and the room id its callback closes over. -/
def disconnectRoom (sock : String) (now : Int) (acc : Outcome) (roomId : String) : Outcome :=
  if roomId ≠ sock then
    match mapGet acc.state.rooms roomId with
    | none => acc
    | some room =>
      let room1 := room.removeUser sock now
      let s1 := acc.state.putRoom roomId room1
      { state := s1
        sent := acc.sent ++
          deliver (s1.others sock roomId) (ServerEvent.userLeft sock room1.getUsersArray)
        timers := acc.timers ++
          (if room1.users.length = 0 then [(now + emptyRoomDelay, roomId)] else [])
        threw := acc.threw }
  else acc

/-- The handler of `disconnect`: the loop over `Array.from(socket.rooms)`, read from the
table when the handler starts. -/
def onDisconnect (s : Server) (sock : String) (now : Int) : Outcome :=
  (s.socketRooms sock).foldl (disconnectRoom sock now) (Outcome.skip s)

/-- The callback of the `setTimeout` armed by `disconnect` for `roomId`. -/
def emptyRoomCheck (s : Server) (roomId : String) : Server :=
  match mapGet s.rooms roomId with
  | none => s
  | some currentRoom =>
    if currentRoom.users.length = 0 then { s with rooms := mapDelete s.rooms roomId } else s

/-- The idle threshold of the periodic cleanup, `24 * 60 * 60 * 1000` milliseconds. -/
def inactiveThreshold : Int := 24 * 60 * 60 * 1000

/-- The test of the periodic cleanup on one room. -/
def Room.inactive (r : Room) (now : Int) : Bool :=
  r.users.length = 0 && decide (now - r.lastActivity > inactiveThreshold)

/-- The callback of `setInterval`: the loop over `rooms.entries()`, deleting as it goes. -/
def cleanupInactive (s : Server) (now : Int) : Server :=
  let visit := fun (acc : List (String × Room)) (e : String × Room) =>
    if Room.inactive e.2 now then mapDelete acc e.1 else acc
  { s with rooms := s.rooms.foldl visit s.rooms }

/-- The route `POST /room`; `uuid` is the value `uuidv4()` returns. -/
def postRoom (s : Server) (uuid : String) (now : Int) : Server :=
  { s with rooms := mapSet s.rooms uuid (Room.new uuid now) }

/-! ## The process as a transition system -/

/-- Something that happens to the process: a socket connects, a connected socket sends a
client event or disconnects, a timer fires, or the HTTP route creates a room. -/
inductive Event where
  | connection (sock : String)
  | joinRoom (sock : String) (data : Option JoinData)
  | codeChange (sock : String) (data : Option CodeData)
  | languageChange (sock : String) (data : Option LanguageData)
  | cursorChange (sock : String) (data : Option CursorData)
  | chatMessage (sock : String) (uuid : String) (data : Option ChatData)
  | disconnect (sock : String)
  | emptyRoomTimeout (roomId : String)
  | cleanupInterval
  | postRoom (uuid : String)
  deriving DecidableEq, Repr

/-- Run a socket's handler if the socket is connected: handlers are registered on
`connection`, so an unconnected socket has none. -/
def ifConnected (s : Server) (sock : String) (o : Outcome) : Outcome :=
  if mapHas s.sockets sock then o else Outcome.skip s

/-- One transition at time `now`. A new socket starts with `socket.rooms = {socket.id}`.
When a socket disconnects, Socket.IO first makes it leave all its rooms and drops it from
the table, and only then runs the `disconnect` handler. -/
def step (s : Server) (now : Int) : Event → Outcome
  | .connection sock =>
    if mapHas s.sockets sock then Outcome.skip s
    else Outcome.skip { s with sockets := s.sockets ++ [(sock, [sock])] }
  | .joinRoom sock data => ifConnected s sock (onJoinRoom s sock now data)
  | .codeChange sock data => ifConnected s sock (onCodeChange s sock now data)
  | .languageChange sock data => ifConnected s sock (onLanguageChange s sock now data)
  | .cursorChange sock data => ifConnected s sock (onCursorChange s sock data)
  | .chatMessage sock uuid data => ifConnected s sock (onChatMessage s sock now uuid data)
  | .disconnect sock =>
    ifConnected s sock
      (onDisconnect { s with sockets := mapDelete s.sockets sock } sock now)
  | .emptyRoomTimeout roomId => Outcome.skip (emptyRoomCheck s roomId)
  | .cleanupInterval => Outcome.skip (cleanupInactive s now)
  | .postRoom uuid => Outcome.skip (postRoom s uuid now)

/-- The state after a sequence of timed events. -/
def run (s : Server) : List (Int × Event) → Server
  | [] => s
  | (now, e) :: rest => run (step s now e).state rest

/-- The deliveries of a sequence of timed events, in order. -/
def runSent (s : Server) : List (Int × Event) → List (String × ServerEvent)
  | [] => []
  | (now, e) :: rest => (step s now e).sent ++ runSent (step s now e).state rest

/-- The states the process can be in. -/
def Reachable (s : Server) : Prop :=
  ∃ trace : List (Int × Event), run Server.init trace = s

/-- The events delivered to one connection, in order. -/
def received (sent : List (String × ServerEvent)) (sock : String) : List ServerEvent :=
  (sent.filter (fun d => d.1 = sock)).map Prod.snd

/-! ## Calls on a single room -/

/-- A call of one of the mutating methods of `Room`. -/
inductive RoomCall where
  | addUser (socketId : String) (userData : Payload)
  | removeUser (socketId : String)
  | updateCode (code : Payload)
  | updateLanguage (language : Payload)
  | updateCursor (socketId : String) (cursor : Payload)
  deriving DecidableEq, Repr

/-- The room after one call made at time `now`; a call that throws leaves it as it was. -/
def Room.call (r : Room) (now : Int) : RoomCall → Room
  | .addUser socketId userData =>
    match r.addUser socketId userData now with
    | some r1 => r1
    | none => r
  | .removeUser socketId => r.removeUser socketId now
  | .updateCode code => r.updateCode code now
  | .updateLanguage language => r.updateLanguage language now
  | .updateCursor socketId cursor => r.updateCursor socketId cursor

/-- The room after a sequence of timed calls. -/
def Room.calls (r : Room) : List (Int × RoomCall) → Room
  | [] => r
  | (now, c) :: rest => (r.call now c).calls rest

/-! ## Membership -/

/-- The connection is a key of the `users` map of the room stored under `roomId`. -/
def Server.isMember (s : Server) (sock roomId : String) : Prop :=
  ∃ room, mapGet s.rooms roomId = some room ∧ mapHas room.users sock = true

/-- The connection is a key of the `cursors` map of the room stored under `roomId`. -/
def Server.hasCursor (s : Server) (sock roomId : String) : Prop :=
  ∃ room, mapGet s.rooms roomId = some room ∧ mapHas room.cursors sock = true

/-- No connection is a key of the `users` map of two rooms. -/
def Server.atMostOneRoom (s : Server) : Prop :=
  ∀ sock r1 r2, s.isMember sock r1 → s.isMember sock r2 → r1 = r2

/-- The event is the route `POST /room` drawing `roomId` as its new identifier. -/
def Event.postsRoom : Event → String → Bool
  | .postRoom uuid, roomId => decide (uuid = roomId)
  | _, _ => false

/-! ## Concrete scenarios -/

/-- A join payload whose participant info is an object without a name. -/
def joinData (roomId : String) : Option JoinData :=
  some { roomId := roomId, user := .obj [] }

/-- Connections `a` and `c` join room `A`, `c` stores a cursor there, then `c` joins `B`. -/
def staleTrace : List (Int × Event) :=
  [(0, .connection "a"), (1, .connection "c"),
   (2, .joinRoom "a" (joinData "A")), (3, .joinRoom "c" (joinData "A")),
   (4, .cursorChange "c" (some { roomId := "A", cursor := .obj [("line", .num 1)] })),
   (5, .joinRoom "c" (joinData "B"))]

/-- The state after `staleTrace`. -/
def staleState : Server :=
  run Server.init staleTrace

/-- After `staleTrace`, a third connection `b` joins room `A`. -/
def threeState : Server :=
  run staleState [(6, .connection "b"), (7, .joinRoom "b" (joinData "A"))]

/-- Connection `a` sends two documents for room `A`. -/
def twoEdits : List (Int × Event) :=
  [(8, .codeChange "a" (some { roomId := "A", code := .atom (.str "x=1"), changes := .atom .undefined })),
   (9, .codeChange "a" (some { roomId := "A", code := .atom (.str "x=2"), changes := .atom .undefined }))]

/-- A state with one room whose only member is `a`, and a second connected socket `b`. -/
def oneRoomState : Server where
  rooms := [("R", { Room.new "R" 0 with
    users := [("a", { id := "a", name := .str "Ann", color := .str "#FF6B6B", joinedAt := 0 })] })]
  sockets := [("a", ["a", "R"]), ("b", ["b"])]

/-- A registry with an idle empty room, a recent empty room and an idle occupied room. -/
def sweepState : Server where
  rooms :=
    [("old", Room.new "old" 0),
     ("new", Room.new "new" 90000000),
     ("busy", { Room.new "busy" 0 with
        users := [("a", { id := "a", name := .str "Ann", color := .str "#FF6B6B", joinedAt := 0 })] })]
  sockets := [("a", ["a", "busy"])]

/-- Connection `c` is the only member of room `R`. -/
def rejoinState : Server :=
  run Server.init [(0, .connection "c"), (1, .joinRoom "c" (joinData "R"))]

/-- Connection `a` joins room `R` at time 1 and sends a cursor position at time 5. -/
def cursorTrace : List (Int × Event) :=
  [(0, .connection "a"), (1, .joinRoom "a" (joinData "R")),
   (5, .cursorChange "a"
     (some { roomId := "R", cursor := .obj [("line", .num 3), ("column", .num 7)] }))]

/-- Connections `a` and `c` join room `R`; `c` sends a cursor whose payload carries fields
named `userId` and `user` of its own. -/
def forgedCursorTrace : List (Int × Event) :=
  [(0, .connection "a"), (1, .connection "c"),
   (2, .joinRoom "a" (joinData "R")), (3, .joinRoom "c" (joinData "R")),
   (4, .cursorChange "c"
     (some { roomId := "R",
             cursor := .obj [("line", .num 1), ("userId", .str "a"), ("user", .null)] }))]

/-- The state after `forgedCursorTrace`. -/
def forgedCursorState : Server :=
  run Server.init forgedCursorTrace

/-! ## Facts about maps -/

theorem mapHas_eq_true_iff {β : Type} (m : List (String × β)) (k : String) :
    mapHas m k = true ↔ ∃ v, mapGet m k = some v := by
  unfold mapHas
  cases h : mapGet m k <;> simp

theorem mapHas_eq_false_iff {β : Type} (m : List (String × β)) (k : String) :
    mapHas m k = false ↔ mapGet m k = none := by
  unfold mapHas
  cases h : mapGet m k <;> simp

theorem mapGet_isSome_iff_mem_keys {β : Type} (m : List (String × β)) (k : String) :
    mapHas m k = true ↔ k ∈ mapKeys m := by
  induction m with
  | nil => simp [mapHas, mapGet, mapKeys]
  | cons e rest ih =>
    obtain ⟨k1, v1⟩ := e
    by_cases h : k1 = k
    · simp [mapHas, mapGet, mapKeys, h]
    · have h2 : ¬ k = k1 := fun hh => h hh.symm
      simpa [mapHas, mapGet, mapKeys, h, h2] using ih

theorem mapGet_eq_none_iff {β : Type} (m : List (String × β)) (k : String) :
    mapGet m k = none ↔ k ∉ mapKeys m := by
  rw [← mapGet_isSome_iff_mem_keys, ← mapHas_eq_false_iff]
  cases mapHas m k <;> simp

theorem mapGet_append {β : Type} (m n : List (String × β)) (k : String) :
    mapGet (m ++ n) k = (mapGet m k).orElse (fun _ => mapGet n k) := by
  induction m with
  | nil => simp [mapGet]
  | cons e rest ih =>
    obtain ⟨k1, v1⟩ := e
    by_cases h : k1 = k
    · simp [mapGet, h]
    · simpa [mapGet, h] using ih

theorem mapKeys_mapReplace {β : Type} (m : List (String × β)) (k : String) (v : β) :
    mapKeys (mapReplace m k v) = mapKeys m := by
  induction m with
  | nil => rfl
  | cons e rest ih =>
    obtain ⟨k1, v1⟩ := e
    by_cases h : k1 = k
    · simp [mapReplace, mapKeys, h]
    · simpa [mapReplace, mapKeys, h] using ih

theorem mapGet_mapReplace_self {β : Type} (m : List (String × β)) (k : String) (v : β) :
    mapGet (mapReplace m k v) k = (mapGet m k).map (fun _ => v) := by
  induction m with
  | nil => rfl
  | cons e rest ih =>
    obtain ⟨k1, v1⟩ := e
    by_cases h : k1 = k
    · simp [mapReplace, mapGet, h]
    · simpa [mapReplace, mapGet, h] using ih

theorem mapGet_mapReplace_ne {β : Type} (m : List (String × β)) (k k2 : String) (v : β)
    (hne : k2 ≠ k) : mapGet (mapReplace m k v) k2 = mapGet m k2 := by
  induction m with
  | nil => rfl
  | cons e rest ih =>
    obtain ⟨k1, v1⟩ := e
    by_cases h : k1 = k
    · have h2 : ¬ k = k2 := fun hh => hne hh.symm
      simp [mapReplace, mapGet, h, h2]
    · by_cases h3 : k1 = k2
      · subst h3
        simp [mapReplace, mapGet, h]
      · simpa [mapReplace, mapGet, h, h3] using ih

theorem mapGet_mapDelete_self {β : Type} (m : List (String × β)) (k : String) :
    mapGet (mapDelete m k) k = none := by
  rw [mapGet_eq_none_iff]
  simp [mapDelete, mapKeys]

theorem mapGet_mapDelete_ne {β : Type} (m : List (String × β)) (k k2 : String)
    (hne : k2 ≠ k) : mapGet (mapDelete m k) k2 = mapGet m k2 := by
  induction m with
  | nil => rfl
  | cons e rest ih =>
    obtain ⟨k1, v1⟩ := e
    by_cases h : k1 = k
    · have h2 : ¬ k = k2 := fun hh => hne hh.symm
      simpa [mapDelete, mapGet, h, h2] using ih
    · by_cases h3 : k1 = k2
      · subst h3
        simp [mapDelete, mapGet, h]
      · simpa [mapDelete, mapGet, h, h3] using ih

theorem mapKeys_mapDelete {β : Type} (m : List (String × β)) (k : String) :
    mapKeys (mapDelete m k) = (mapKeys m).filter (fun x => x ≠ k) := by
  induction m with
  | nil => rfl
  | cons e rest ih =>
    obtain ⟨k1, v1⟩ := e
    by_cases h : k1 = k
    · simpa [mapDelete, mapKeys, h] using ih
    · simpa [mapDelete, mapKeys, h] using ih

theorem mapGet_mapSet_self {β : Type} (m : List (String × β)) (k : String) (v : β) :
    mapGet (mapSet m k v) k = some v := by
  unfold mapSet
  by_cases h : mapHas m k = true
  · obtain ⟨w, hw⟩ := (mapHas_eq_true_iff m k).1 h
    simp [h, mapGet_mapReplace_self, hw]
  · have hn : mapGet m k = none := (mapHas_eq_false_iff m k).1 (by simpa using h)
    simp [h, mapGet_append, hn, mapGet]

theorem mapGet_mapSet_ne {β : Type} (m : List (String × β)) (k k2 : String) (v : β)
    (hne : k2 ≠ k) : mapGet (mapSet m k v) k2 = mapGet m k2 := by
  unfold mapSet
  by_cases h : mapHas m k = true
  · simp [h, mapGet_mapReplace_ne m k k2 v hne]
  · have h2 : ¬ k = k2 := fun hh => hne hh.symm
    cases hg : mapGet m k2 <;> simp [h, mapGet_append, mapGet, h2, hg]

theorem mapKeys_mapSet {β : Type} (m : List (String × β)) (k : String) (v : β) :
    mapKeys (mapSet m k v) = if mapHas m k then mapKeys m else mapKeys m ++ [k] := by
  unfold mapSet
  by_cases h : mapHas m k = true
  · simp [h, mapKeys_mapReplace]
  · simp [h, mapKeys]

theorem mapWF_mapReplace {β : Type} (m : List (String × β)) (k : String) (v : β)
    (h : mapWF m) : mapWF (mapReplace m k v) := by
  unfold mapWF at *
  rw [mapKeys_mapReplace]; exact h

theorem mapWF_mapDelete {β : Type} (m : List (String × β)) (k : String)
    (h : mapWF m) : mapWF (mapDelete m k) := by
  unfold mapWF at *
  rw [mapKeys_mapDelete]; exact h.filter _

theorem mapWF_mapSet {β : Type} (m : List (String × β)) (k : String) (v : β)
    (h : mapWF m) : mapWF (mapSet m k v) := by
  unfold mapWF at *
  rw [mapKeys_mapSet]
  by_cases hk : mapHas m k = true
  · simpa [hk] using h
  · have hn : k ∉ mapKeys m := fun hm => hk ((mapGet_isSome_iff_mem_keys m k).2 hm)
    simp only [hk, Bool.false_eq_true, if_false]
    exact List.Nodup.append h (List.nodup_singleton k) (by simpa using hn)

theorem mapWF_entry_unique {β : Type} (m : List (String × β)) (h : mapWF m)
    (e1 e2 : String × β) (h1 : e1 ∈ m) (h2 : e2 ∈ m) (hk : e1.1 = e2.1) : e1 = e2 :=
  List.inj_on_of_nodup_map h h1 h2 hk

theorem mapGet_of_mem {β : Type} (m : List (String × β)) (h : mapWF m) (k : String) (v : β)
    (hm : (k, v) ∈ m) : mapGet m k = some v := by
  induction m with
  | nil => simp at hm
  | cons e rest ih =>
    obtain ⟨k1, v1⟩ := e
    have hnd : k1 ∉ mapKeys rest ∧ mapWF rest := by
      simpa [mapWF, mapKeys] using h
    rcases List.mem_cons.1 hm with heq | hrest
    · injection heq with h1 h2
      simp [mapGet, h1, h2]
    · have hne : k1 ≠ k := by
        intro hh
        apply hnd.1
        rw [hh]
        exact List.mem_map.2 ⟨(k, v), hrest, rfl⟩
      simpa [mapGet, hne] using ih hnd.2 hrest

theorem mem_of_mapGet {β : Type} (m : List (String × β)) (k : String) (v : β)
    (hg : mapGet m k = some v) : (k, v) ∈ m := by
  induction m with
  | nil => simp [mapGet] at hg
  | cons e rest ih =>
    obtain ⟨k1, v1⟩ := e
    by_cases h : k1 = k
    · simp [mapGet, h] at hg
      simp [h, hg]
    · simp [mapGet, h] at hg
      exact List.mem_cons_of_mem _ (ih hg)

theorem mapGet_filter {β : Type} (m : List (String × β)) (h : mapWF m)
    (p : String × β → Bool) (k : String) :
    mapGet (m.filter p) k = (mapGet m k).bind (fun v => if p (k, v) then some v else none) := by
  induction m with
  | nil => rfl
  | cons e rest ih =>
    obtain ⟨k1, v1⟩ := e
    have hnd : k1 ∉ mapKeys rest ∧ mapWF rest := by
      simpa [mapWF, mapKeys] using h
    by_cases hk : k1 = k
    · subst hk
      by_cases hp : p (k1, v1) = true
      · simp [List.filter_cons, hp, mapGet]
      · have hnone : mapGet (rest.filter p) k1 = none := by
          rw [mapGet_eq_none_iff]
          intro hmem
          apply hnd.1
          obtain ⟨e, he, hke⟩ := List.mem_map.1 hmem
          exact List.mem_map.2 ⟨e, (List.mem_filter.1 he).1, hke⟩
        simp [List.filter_cons, hp, mapGet, hnone]
    · by_cases hp : p (k1, v1) = true
      · simpa [List.filter_cons, hp, mapGet, hk] using ih hnd.2
      · simpa [List.filter_cons, hp, mapGet, hk] using ih hnd.2

theorem mapDelete_eq_nil {β : Type} (m : List (String × β)) (k : String)
    (h : ∀ x ∈ mapKeys m, x = k) : mapDelete m k = [] := by
  unfold mapDelete
  rw [List.filter_eq_nil_iff]
  intro e he
  have := h e.1 (List.mem_map.2 ⟨e, he, rfl⟩)
  simp [this]

theorem mem_mapReplace_ne {β : Type} (m : List (String × β)) (k : String) (v : β)
    (e : String × β) (hne : e.1 ≠ k) : e ∈ mapReplace m k v ↔ e ∈ m := by
  induction m with
  | nil => simp [mapReplace]
  | cons x rest ih =>
    obtain ⟨k1, v1⟩ := x
    by_cases h : k1 = k
    · subst h
      simp only [mapReplace, if_true, List.mem_cons]
      constructor
      · rintro (h1 | h1)
        · rw [h1] at hne
          exact absurd rfl hne
        · exact Or.inr h1
      · rintro (h1 | h1)
        · rw [h1] at hne
          exact absurd rfl hne
        · exact Or.inr h1
    · simp only [mapReplace, if_neg h, List.mem_cons, ih]

/-! ## The cleanup loop as a filter -/

/-- The loop of the cleanup over the entries `l`, started on the map `acc`. -/
theorem cleanup_foldl_eq_filter (now : Int) (l acc : List (String × Room)) :
    l.foldl (fun (acc : List (String × Room)) (e : String × Room) =>
        if Room.inactive e.2 now then mapDelete acc e.1 else acc) acc =
      acc.filter (fun e =>
        decide (e.1 ∉ mapKeys (l.filter (fun x => Room.inactive x.2 now)))) := by
  induction l generalizing acc with
  | nil => simp [mapKeys]
  | cons x rest ih =>
    simp only [List.foldl_cons]
    by_cases hx : x.2.inactive now = true
    · rw [if_pos hx, ih, mapDelete, List.filter_filter]
      apply List.filter_congr
      intro e _
      have hf : (x :: rest).filter (fun y => Room.inactive y.2 now) =
          x :: rest.filter (fun y => Room.inactive y.2 now) := by
        simp [List.filter_cons, hx]
      rw [hf]
      by_cases h1 : e.1 = x.1 <;>
        by_cases h2 : e.1 ∈ mapKeys (rest.filter (fun y => Room.inactive y.2 now)) <;>
        simp [mapKeys, h1, h2] at *
    · rw [if_neg hx, ih]
      simp [List.filter_cons, hx]

theorem cleanupInactive_rooms (s : Server) (now : Int) (hwf : mapWF s.rooms) :
    (cleanupInactive s now).rooms = s.rooms.filter (fun e => ! Room.inactive e.2 now) := by
  simp only [cleanupInactive]
  rw [cleanup_foldl_eq_filter]
  apply List.filter_congr
  intro e he
  by_cases hin : e.2.inactive now = true
  · have : e.1 ∈ mapKeys (s.rooms.filter (fun x => Room.inactive x.2 now)) :=
      List.mem_map.2 ⟨e, List.mem_filter.2 ⟨he, hin⟩, rfl⟩
    simp [hin, this]
  · have : e.1 ∉ mapKeys (s.rooms.filter (fun x => Room.inactive x.2 now)) := by
      intro hmem
      obtain ⟨e2, he2, hk⟩ := List.mem_map.1 hmem
      have h2 := List.mem_filter.1 he2
      have := mapWF_entry_unique s.rooms hwf e2 e h2.1 he hk
      rw [this] at h2
      exact hin h2.2
    simp [hin, this]

/-! ## Joining a second room -/

/-- C1: a connection that is a member of room `A`, with a cursor stored there, and then
joins room `B` is afterwards still a key of `users` and of `cursors` of `A` and also a key
of `users` of `B`; the reachable state `staleState` breaks `atMostOneRoom`. -/
theorem join_second_room_keeps_first_membership :
    Reachable staleState ∧
      staleState.isMember "c" "A" ∧ staleState.hasCursor "c" "A" ∧
      staleState.isMember "c" "B" ∧ ¬ staleState.atMostOneRoom := by
  have hA : staleState.isMember "c" "A" :=
    ⟨_, (by rfl : mapGet staleState.rooms "A" = some _), by rfl⟩
  have hC : staleState.hasCursor "c" "A" :=
    ⟨_, (by rfl : mapGet staleState.rooms "A" = some _), by rfl⟩
  have hB : staleState.isMember "c" "B" :=
    ⟨_, (by rfl : mapGet staleState.rooms "B" = some _), by rfl⟩
  refine ⟨⟨staleTrace, rfl⟩, hA, hC, hB, ?_⟩
  intro h
  exact absurd (h "c" "A" "B" hA hB) (by decide)

/-! ## Room invariant: cursors belong to members -/

theorem Room.call_cursors_subset (r : Room) (now : Int) (c : RoomCall)
    (h : mapKeys r.cursors ⊆ mapKeys r.users) :
    mapKeys (r.call now c).cursors ⊆ mapKeys (r.call now c).users := by
  cases c with
  | addUser socketId userData =>
    simp only [Room.call]
    cases hadd : r.addUser socketId userData now with
    | none => simpa using h
    | some r1 =>
      simp only [Room.addUser] at hadd
      split at hadd
      · injection hadd with hadd
        subst hadd
        intro k hk
        have hk2 := h hk
        simp only [mapKeys_mapSet]
        split
        · exact hk2
        · exact List.mem_append_left _ hk2
      · exact absurd hadd (by simp)
  | removeUser socketId =>
    intro k hk
    simp only [Room.call, Room.removeUser, mapKeys_mapDelete, List.mem_filter] at hk ⊢
    exact ⟨h hk.1, hk.2⟩
  | updateCode code => simpa [Room.call, Room.updateCode] using h
  | updateLanguage language => simpa [Room.call, Room.updateLanguage] using h
  | updateCursor socketId cursor =>
    simp only [Room.call, Room.updateCursor]
    by_cases hu : mapHas r.users socketId = true
    · simp only [hu, if_true]
      intro k hk
      simp only [mapKeys_mapSet] at hk
      split at hk
      · exact h hk
      · rcases List.mem_append.1 hk with hk1 | hk1
        · exact h hk1
        · have : k = socketId := by simpa using hk1
          subst this
          exact (mapGet_isSome_iff_mem_keys _ _).1 hu
    · simpa [hu] using h

theorem Room.calls_cursors_subset (r : Room) (calls : List (Int × RoomCall))
    (h : mapKeys r.cursors ⊆ mapKeys r.users) :
    mapKeys (r.calls calls).cursors ⊆ mapKeys (r.calls calls).users := by
  induction calls generalizing r with
  | nil => simpa [Room.calls] using h
  | cons c rest ih =>
    obtain ⟨now, c⟩ := c
    simp only [Room.calls]
    exact ih _ (Room.call_cursors_subset r now c h)

/-- C2: in every `Room` reached from a freshly constructed one by any sequence of `addUser`,
`removeUser`, `updateCode`, `updateLanguage` and `updateCursor` calls, with arbitrary
connection ids and payloads, every key of `cursors` is a key of `users`. -/
theorem cursors_keys_subset_users_keys (id : String) (created : Int)
    (calls : List (Int × RoomCall)) :
    mapKeys ((Room.new id created).calls calls).cursors ⊆
      mapKeys ((Room.new id created).calls calls).users :=
  Room.calls_cursors_subset _ calls (by simp [Room.new, mapKeys])

/-! ## Events from non-members -/

/-- C3: when `r` is not a key of `rooms`, or `c` is not a key of the `users` of the room
stored under `r`, the handlers of `code-change`, `language-change`, `cursor-change` and
`chat-message` leave the state exactly as it was (every room with its document, language,
members, cursors and `lastActivity`) and deliver no event to any connection. -/
theorem nonmember_events_are_dropped (s : Server) (c r : String) (now : Int) (uuid : String)
    (code changes language cursor message : Payload)
    (h : mapHas s.rooms r = false ∨
      ∃ room, mapGet s.rooms r = some room ∧ mapHas room.users c = false) :
    ((onCodeChange s c now (some ⟨r, code, changes⟩)).state = s ∧
      (onCodeChange s c now (some ⟨r, code, changes⟩)).sent = []) ∧
    ((onLanguageChange s c now (some ⟨r, language⟩)).state = s ∧
      (onLanguageChange s c now (some ⟨r, language⟩)).sent = []) ∧
    ((onCursorChange s c (some ⟨r, cursor⟩)).state = s ∧
      (onCursorChange s c (some ⟨r, cursor⟩)).sent = []) ∧
    ((onChatMessage s c now uuid (some ⟨r, message⟩)).state = s ∧
      (onChatMessage s c now uuid (some ⟨r, message⟩)).sent = []) := by
  rcases h with h | ⟨room, hroom, hmem⟩
  · have hn : mapGet s.rooms r = none := (mapHas_eq_false_iff _ _).1 h
    simp [onCodeChange, onLanguageChange, onCursorChange, onChatMessage, hn, Outcome.skip]
  · simp [onCodeChange, onLanguageChange, onCursorChange, onChatMessage, hroom, hmem,
      Outcome.skip]

theorem nonmember_events_are_dropped_witness :
    (mapHas oneRoomState.rooms "R" = false ∨
      ∃ room, mapGet oneRoomState.rooms "R" = some room ∧ mapHas room.users "b" = false) ∧
    ((onCodeChange oneRoomState "b" 5 (some ⟨"R", .atom (.str "x"), .atom .undefined⟩)).state
        = oneRoomState ∧
      (onCodeChange oneRoomState "b" 5 (some ⟨"R", .atom (.str "x"), .atom .undefined⟩)).sent
        = []) :=
  ⟨Or.inr ⟨_, rfl, rfl⟩,
    (nonmember_events_are_dropped oneRoomState "b" "R" 5 "id-1" (.atom (.str "x"))
      (.atom .undefined) (.atom (.str "python")) (.obj [("line", .num 1)]) (.atom (.str "hi"))
      (Or.inr ⟨_, rfl, rfl⟩)).1⟩

/-! ## Broadcasts and members left behind -/

/-- C4: in `threeState` the connections `a`, `c` and `b` are keys of the `users` of room
`A`. Two `code-change` events from `a` for `A`, carrying `x=1` and then `x=2`, leave the
document of `A` equal to `x=2`, and `b` receives the two events in that order; the other
member `c` receives neither. -/
theorem code_change_skips_stale_member :
    threeState.isMember "a" "A" ∧ threeState.isMember "b" "A" ∧
    threeState.isMember "c" "A" ∧
    (mapGet (run threeState twoEdits).rooms "A").map Room.code = some (.atom (.str "x=2")) ∧
    received (runSent threeState twoEdits) "b" =
      [ServerEvent.codeChange (.atom (.str "x=1")) (.atom .undefined) "a"
          (some ⟨"a", .str "User 1", .str "#FF6B6B", 2⟩),
       ServerEvent.codeChange (.atom (.str "x=2")) (.atom .undefined) "a"
          (some ⟨"a", .str "User 1", .str "#FF6B6B", 2⟩)] ∧
    received (runSent threeState twoEdits) "c" = [] := by
  refine ⟨⟨_, (by rfl : mapGet threeState.rooms "A" = some _), by rfl⟩,
    ⟨_, (by rfl : mapGet threeState.rooms "A" = some _), by rfl⟩,
    ⟨_, (by rfl : mapGet threeState.rooms "A" = some _), by rfl⟩, by rfl, by rfl, by rfl⟩

/-! ## Joining a room -/

theorem Payload.prop_some (v : Payload) (key : String)
    (h : v ≠ .atom .undefined ∧ v ≠ .atom .null) : ∃ a, v.prop key = some a := by
  cases v with
  | atom a =>
    cases a with
    | undefined => exact absurd rfl h.1
    | null => exact absurd rfl h.2
    | bool b => exact ⟨_, rfl⟩
    | num n => exact ⟨_, rfl⟩
    | str s => exact ⟨_, rfl⟩
  | obj props => exact ⟨_, rfl⟩

theorem mem_inRoom (s : Server) (r d : String) :
    d ∈ s.inRoom r ↔ ∃ rs, (d, rs) ∈ s.sockets ∧ r ∈ rs := by
  unfold Server.inRoom
  simp only [List.mem_map, List.mem_filter, List.contains, List.elem_iff]
  constructor
  · rintro ⟨e, ⟨he, hr⟩, hd⟩
    subst hd
    exact ⟨e.2, he, hr⟩
  · rintro ⟨rs, he, hr⟩
    exact ⟨(d, rs), ⟨he, hr⟩, rfl⟩

theorem mem_others (s : Server) (sock r d : String) :
    d ∈ s.others sock r ↔ d ∈ s.inRoom r ∧ d ≠ sock := by
  unfold Server.others
  simp [List.mem_filter]

theorem mem_inRoom_putSocketRooms (s : Server) (sock : String) (rs : List String)
    (r d : String) (hne : d ≠ sock) :
    d ∈ (s.putSocketRooms sock rs).inRoom r ↔ d ∈ s.inRoom r := by
  simp only [mem_inRoom, Server.putSocketRooms]
  constructor
  · rintro ⟨x, hx, hr⟩
    exact ⟨x, (mem_mapReplace_ne _ _ _ (d, x) hne).1 hx, hr⟩
  · rintro ⟨x, hx, hr⟩
    exact ⟨x, (mem_mapReplace_ne _ _ _ (d, x) hne).2 hx, hr⟩

theorem received_deliver_others (s : Server) (sock r : String) (ev : ServerEvent) :
    received (deliver (s.others sock r) ev) sock = [] := by
  unfold received deliver
  rw [List.map_eq_nil_iff, List.filter_eq_nil_iff]
  intro x hx
  obtain ⟨d, hd, rfl⟩ := List.mem_map.1 hx
  have := ((mem_others s sock r d).1 hd).2
  simpa using this

theorem received_append (l1 l2 : List (String × ServerEvent)) (sock : String) :
    received (l1 ++ l2) sock = received l1 sock ++ received l2 sock := by
  simp [received]

theorem mem_deliver (receivers : List String) (ev ev1 : ServerEvent) (d : String) :
    (d, ev1) ∈ deliver receivers ev ↔ d ∈ receivers ∧ ev1 = ev := by
  unfold deliver
  simp only [List.mem_map, Prod.mk.injEq]
  constructor
  · rintro ⟨x, hx, rfl, rfl⟩
    exact ⟨hx, rfl⟩
  · rintro ⟨hx, rfl⟩
    exact ⟨d, hx, rfl, rfl⟩

/-- The record `addUser` stores for `socketId` in room `r`. -/
theorem addUser_some (r : Room) (socketId : String) (userData : Payload) (now : Int)
    (h : userData ≠ .atom .undefined ∧ userData ≠ .atom .null) :
    ∃ p : Participant, p.id = socketId ∧ p.joinedAt = now ∧
      r.addUser socketId userData now =
        some { r with users := mapSet r.users socketId p, lastActivity := now } := by
  obtain ⟨n, hn⟩ := Payload.prop_some userData "name" h
  obtain ⟨c, hc⟩ := Payload.prop_some userData "color" h
  refine ⟨⟨socketId, n.orElse (.str ("User " ++ toString (r.users.length + 1))),
    c.orElse r.generateUserColor, now⟩, rfl, rfl, ?_⟩
  simp only [Room.addUser, hn, hc]

/-- The state of `join-room` after the room has been looked up or created. -/
theorem joinRoom_lookup (s : Server) (r : String) (now : Int) :
    mapGet (if ¬ mapHas s.rooms r = true then
        { s with rooms := mapSet s.rooms r (Room.new r now) } else s).rooms r =
      some ((mapGet s.rooms r).getD (Room.new r now)) ∧
    (if ¬ mapHas s.rooms r = true then
        { s with rooms := mapSet s.rooms r (Room.new r now) } else s).sockets = s.sockets := by
  by_cases h : mapHas s.rooms r = true
  · obtain ⟨room, hroom⟩ := (mapHas_eq_true_iff _ _).1 h
    simp [h, hroom]
  · have hn : mapGet s.rooms r = none := (mapHas_eq_false_iff _ _).1 (by simpa using h)
    simp [h, hn, mapGet_mapSet_self]

theorem onJoinRoom_ok (s : Server) (c r : String) (now : Int) (user : Payload)
    (room1 : Room)
    (hadd : ((mapGet s.rooms r).getD (Room.new r now)).addUser c user now = some room1) :
    mapGet (onJoinRoom s c now (some ⟨r, user⟩)).state.rooms r = some room1 ∧
    ∃ s3 : Server, (∀ d, d ≠ c → (d ∈ s3.inRoom r ↔ d ∈ s.inRoom r)) ∧
      (onJoinRoom s c now (some ⟨r, user⟩)).sent =
        [(c, ServerEvent.roomState room1.code room1.language room1.getUsersArray
          room1.getCursorsArray)] ++
        deliver (s3.others c r)
          (ServerEvent.userJoined (mapGet room1.users c) room1.getUsersArray) := by
  obtain ⟨h1, h2⟩ := joinRoom_lookup s r now
  simp only [onJoinRoom, h1, hadd]
  refine ⟨?_, _, ?_, rfl⟩
  · simp only [Server.putRoom, Server.putSocketRooms]
    rw [mapGet_mapReplace_self, h1]
    rfl
  · intro d hd
    simp only [mem_inRoom, Server.putRoom, Server.putSocketRooms, h2]
    constructor
    · rintro ⟨x, hx, hr⟩
      exact ⟨x, (mem_mapReplace_ne _ _ _ (d, x) hd).1 hx, hr⟩
    · rintro ⟨x, hx, hr⟩
      exact ⟨x, (mem_mapReplace_ne _ _ _ (d, x) hd).2 hx, hr⟩

/-- What a `join-room` of `c` for `r` does when its participant info is neither `undefined`
nor `null`: the room is created with the default document and language when `r` is not in
`rooms`, and keeps its document, language and cursors otherwise; a new record `p` is stored
for `c`; `c` receives `room-state` and nothing else; every other connected socket that is
in the Socket.IO room `r` receives `user-joined`, and nothing else is delivered. -/
theorem join_sends_snapshot_and_notifies_room (s : Server) (c r : String) (now : Int)
    (user : Payload) (huser : user ≠ .atom .undefined ∧ user ≠ .atom .null) :
    ∃ (room1 : Room) (p : Participant),
      mapGet (onJoinRoom s c now (some ⟨r, user⟩)).state.rooms r = some room1 ∧
      (mapGet s.rooms r = none →
        room1.code = .atom (.str defaultCode) ∧ room1.language = .atom (.str "javascript") ∧
        room1.getUsersArray = [p]) ∧
      (∀ room, mapGet s.rooms r = some room →
        room1.code = room.code ∧ room1.language = room.language ∧
        room1.cursors = room.cursors ∧
        (mapHas room.users c = false → room1.getUsersArray = room.getUsersArray ++ [p])) ∧
      mapGet room1.users c = some p ∧ p.id = c ∧ p.joinedAt = now ∧
      p ∈ room1.getUsersArray ∧
      received (onJoinRoom s c now (some ⟨r, user⟩)).sent c =
        [ServerEvent.roomState room1.code room1.language room1.getUsersArray
          room1.getCursorsArray] ∧
      ∀ d, d ≠ c →
        (d ∈ s.inRoom r →
          (d, ServerEvent.userJoined (some p) room1.getUsersArray) ∈
            (onJoinRoom s c now (some ⟨r, user⟩)).sent) ∧
        (∀ ev, (d, ev) ∈ (onJoinRoom s c now (some ⟨r, user⟩)).sent →
          d ∈ s.inRoom r ∧ ev = ServerEvent.userJoined (some p) room1.getUsersArray) := by
  obtain ⟨p, hid, hat, hadd⟩ :=
    addUser_some ((mapGet s.rooms r).getD (Room.new r now)) c user now huser
  obtain ⟨hget, s3, hin, hsent⟩ := onJoinRoom_ok s c r now user _ hadd
  have hp : mapGet (mapSet ((mapGet s.rooms r).getD (Room.new r now)).users c p) c = some p :=
    mapGet_mapSet_self _ _ _
  refine ⟨_, p, hget, ?_, ?_, hp, hid, hat, ?_, ?_, ?_⟩
  · intro hnone
    simp [hnone, Room.new, Room.getUsersArray, mapSet, mapHas, mapGet, mapValues]
  · intro room hroom
    refine ⟨by simp [hroom], by simp [hroom], by simp [hroom], ?_⟩
    intro hnew
    simp [hroom, Room.getUsersArray, mapSet, hnew, mapValues]
  · exact List.mem_map.2 ⟨(c, p), mem_of_mapGet _ _ _ hp, rfl⟩
  · rw [hsent, received_append, received_deliver_others]
    simp [received]
  · intro d hd
    rw [hsent]
    constructor
    · intro hmem
      apply List.mem_append_right
      rw [mem_deliver, mem_others, hin d hd]
      exact ⟨⟨hmem, hd⟩, by rw [hp]⟩
    · intro ev hev
      rcases List.mem_append.1 hev with h1 | h1
      · simp only [List.mem_singleton, Prod.mk.injEq] at h1
        exact absurd h1.1 hd
      · rw [mem_deliver, mem_others, hin d hd] at h1
        exact ⟨h1.1.1, by rw [h1.2, hp]⟩

/-- C5: in `staleState` connection `c` is a key of the `users` of room `A`. When `b`
connects and joins `A` with participant info, `b` receives the `room-state` snapshot and
`a` receives `user-joined`, both listing the members `a`, `c`, `b`; `c`, which the member
list names, receives no `user-joined`. -/
theorem join_skips_stale_member :
    staleState.isMember "c" "A" ∧
    received (runSent staleState
        [(6, .connection "b"), (7, .joinRoom "b" (joinData "A"))]) "b" =
      [ServerEvent.roomState (.atom (.str defaultCode)) (.atom (.str "javascript"))
        [⟨"a", .str "User 1", .str "#FF6B6B", 2⟩, ⟨"c", .str "User 2", .str "#4ECDC4", 3⟩,
         ⟨"b", .str "User 3", .str "#45B7D1", 7⟩]
        [[("userId", .atom (.str "c")),
          ("user", .user (some ⟨"c", .str "User 2", .str "#4ECDC4", 3⟩)),
          ("line", .atom (.num 1))]]] ∧
    received (runSent staleState
        [(6, .connection "b"), (7, .joinRoom "b" (joinData "A"))]) "a" =
      [ServerEvent.userJoined (some ⟨"b", .str "User 3", .str "#45B7D1", 7⟩)
        [⟨"a", .str "User 1", .str "#FF6B6B", 2⟩, ⟨"c", .str "User 2", .str "#4ECDC4", 3⟩,
         ⟨"b", .str "User 3", .str "#45B7D1", 7⟩]] ∧
    received (runSent staleState
        [(6, .connection "b"), (7, .joinRoom "b" (joinData "A"))]) "c" = [] := by
  refine ⟨⟨_, (by rfl : mapGet staleState.rooms "A" = some _), by rfl⟩, by rfl, by rfl, by rfl⟩

/-! ## Disconnecting -/

/-- C6: in `staleState` connection `c` is a key of `users` and of `cursors` of room `A`
and a key of `users` of room `B`, the room it joined last. After `c` disconnects it is
still a key of all three maps, the remaining member `a` of `A` receives no `user-left`
event, nothing at all is delivered and no timer is armed. -/
theorem disconnect_keeps_stale_member :
    staleState.isMember "c" "A" ∧ staleState.hasCursor "c" "A" ∧
    (step staleState 9 (.disconnect "c")).state.isMember "c" "A" ∧
    (step staleState 9 (.disconnect "c")).state.hasCursor "c" "A" ∧
    received (step staleState 9 (.disconnect "c")).sent "a" = [] ∧
    staleState.isMember "c" "B" ∧
    (step staleState 9 (.disconnect "c")).state.isMember "c" "B" ∧
    (step staleState 9 (.disconnect "c")).state.rooms = staleState.rooms ∧
    (step staleState 9 (.disconnect "c")).sent = [] ∧
    (step staleState 9 (.disconnect "c")).timers = [] := by
  refine ⟨⟨_, (by rfl : mapGet staleState.rooms "A" = some _), by rfl⟩,
    ⟨_, (by rfl : mapGet staleState.rooms "A" = some _), by rfl⟩,
    ⟨_, (by rfl : mapGet (step staleState 9 (.disconnect "c")).state.rooms "A" = some _),
      by rfl⟩,
    ⟨_, (by rfl : mapGet (step staleState 9 (.disconnect "c")).state.rooms "A" = some _),
      by rfl⟩, by rfl,
    ⟨_, (by rfl : mapGet staleState.rooms "B" = some _), by rfl⟩,
    ⟨_, (by rfl : mapGet (step staleState 9 (.disconnect "c")).state.rooms "B" = some _),
      by rfl⟩, by rfl, by rfl, by rfl⟩

/-! ## The delayed check of an emptied room -/

/-- C7: in `rejoinState` connection `c` is the only key of the `users` of room `R`. When
`c` disconnects at time 10 no check is armed and nothing is delivered; `c` is still the
only key of the `users` of `R`. The check of `R`, were it to run, and the periodic cleanup
more than 24 hours later both leave `R` in `rooms`. -/
theorem last_member_disconnect_arms_no_check :
    (mapGet rejoinState.rooms "R").map (fun room => mapKeys room.users) = some ["c"] ∧
    rejoinState.socketRooms "c" = ["c", "R"] ∧
    (step rejoinState 10 (.disconnect "c")).timers = [] ∧
    (step rejoinState 10 (.disconnect "c")).sent = [] ∧
    (mapGet (step rejoinState 10 (.disconnect "c")).state.rooms "R").map
      (fun room => mapKeys room.users) = some ["c"] ∧
    mapHas (emptyRoomCheck (step rejoinState 10 (.disconnect "c")).state "R").rooms "R"
      = true ∧
    mapHas (cleanupInactive (step rejoinState 10 (.disconnect "c")).state 200000000).rooms "R"
      = true := by
  refine ⟨by rfl, by rfl, by rfl, by rfl, by rfl, by rfl, by rfl⟩

/-! ## Rooms that keep a member -/

theorem putRoom_get_self (s : Server) (k : String) (room : Room) :
    mapGet (s.putRoom k room).rooms k = (mapGet s.rooms k).map (fun _ => room) :=
  mapGet_mapReplace_self s.rooms k room

theorem putRoom_get_ne (s : Server) (k r : String) (room : Room) (h : r ≠ k) :
    mapGet (s.putRoom k room).rooms r = mapGet s.rooms r :=
  mapGet_mapReplace_ne s.rooms k r room h

theorem mapWF_filter {β : Type} (m : List (String × β)) (p : String × β → Bool)
    (h : mapWF m) : mapWF (m.filter p) := by
  unfold mapWF mapKeys at *
  exact h.sublist ((List.filter_sublist m).map Prod.fst)

theorem isMember_putRoom (s : Server) (k d r : String) (room room1 : Room)
    (hget : mapGet s.rooms k = some room)
    (husers : mapHas room.users d = true → mapHas room1.users d = true)
    (h : s.isMember d r) : (s.putRoom k room1).isMember d r := by
  obtain ⟨x, hx, hd⟩ := h
  by_cases hk : r = k
  · subst hk
    rw [hget] at hx
    injection hx with hx
    subst hx
    exact ⟨room1, by rw [putRoom_get_self, hget]; rfl, husers hd⟩
  · exact ⟨x, by rw [putRoom_get_ne _ _ _ _ hk]; exact hx, hd⟩

theorem isMember_of_rooms_eq (s s1 : Server) (d r : String)
    (hr : s1.rooms = s.rooms) (h : s.isMember d r) : s1.isMember d r := by
  obtain ⟨x, hx, hd⟩ := h
  exact ⟨x, by rw [hr]; exact hx, hd⟩

theorem mapHas_mapSet {β : Type} (m : List (String × β)) (k d : String) (v : β)
    (h : mapHas m d = true) : mapHas (mapSet m k v) d = true := by
  by_cases hk : d = k
  · subst hk
    simp [mapHas, mapGet_mapSet_self]
  · unfold mapHas at *
    rw [mapGet_mapSet_ne _ _ _ _ hk]
    exact h

theorem addUser_users (room room1 : Room) (sock : String) (user : Payload) (now : Int)
    (d : String) (hadd : room.addUser sock user now = some room1)
    (h : mapHas room.users d = true) : mapHas room1.users d = true := by
  simp only [Room.addUser] at hadd
  split at hadd
  · injection hadd with hadd
    subst hadd
    exact mapHas_mapSet _ _ _ _ h
  · exact absurd hadd (by simp)

/-- The registry after `join-room` has looked the room up or created it. -/
theorem joinRoom_created (s : Server) (r : String) (now : Int) (d R : String)
    (hwf : mapWF s.rooms) (h : s.isMember d R) :
    mapWF (if ¬ mapHas s.rooms r = true then
        { s with rooms := mapSet s.rooms r (Room.new r now) } else s).rooms ∧
    (if ¬ mapHas s.rooms r = true then
        { s with rooms := mapSet s.rooms r (Room.new r now) } else s).isMember d R := by
  by_cases hr : mapHas s.rooms r = true
  · rw [if_neg (not_not.2 hr)]
    exact ⟨hwf, h⟩
  · rw [if_pos hr]
    refine ⟨mapWF_mapSet _ _ _ hwf, ?_⟩
    obtain ⟨x, hx, hd⟩ := h
    have hne : R ≠ r := by
      intro heq
      subst heq
      exact hr ((mapHas_eq_true_iff _ _).2 ⟨x, hx⟩)
    exact ⟨x, by rw [mapGet_mapSet_ne _ _ _ _ hne]; exact hx, hd⟩

theorem onJoinRoom_keeps (s : Server) (sock : String) (now : Int) (data : Option JoinData)
    (d R : String) (hwf : mapWF s.rooms) (h : s.isMember d R) :
    mapWF (onJoinRoom s sock now data).state.rooms ∧
      (onJoinRoom s sock now data).state.isMember d R := by
  cases data with
  | none => exact ⟨hwf, h⟩
  | some dd =>
    obtain ⟨hwf1, h1⟩ := joinRoom_created s dd.roomId now d R hwf h
    simp only [onJoinRoom]
    split
    · exact ⟨hwf1, isMember_of_rooms_eq _ _ d R rfl h1⟩
    · rename_i room hroom
      split
      · exact ⟨hwf1, isMember_of_rooms_eq _ _ d R rfl h1⟩
      · rename_i room1 hadd
        refine ⟨mapWF_mapReplace _ _ _ hwf1, ?_⟩
        exact isMember_putRoom _ _ d R room room1 hroom
          (addUser_users room room1 sock dd.user now d hadd)
          (isMember_of_rooms_eq _ _ d R rfl h1)

theorem updateCursor_users (room : Room) (sock : String) (cursor : Payload) :
    (room.updateCursor sock cursor).users = room.users := by
  unfold Room.updateCursor
  split <;> rfl

theorem onCodeChange_keeps (s : Server) (sock : String) (now : Int)
    (data : Option CodeData) (d R : String) (hwf : mapWF s.rooms) (h : s.isMember d R) :
    mapWF (onCodeChange s sock now data).state.rooms ∧
      (onCodeChange s sock now data).state.isMember d R := by
  cases data with
  | none => exact ⟨hwf, h⟩
  | some dd =>
    simp only [onCodeChange]
    split
    · exact ⟨hwf, h⟩
    · rename_i room hroom
      split
      · exact ⟨mapWF_mapReplace _ _ _ hwf,
          isMember_putRoom s _ d R room _ hroom (fun hu => hu) h⟩
      · exact ⟨hwf, h⟩

theorem onLanguageChange_keeps (s : Server) (sock : String) (now : Int)
    (data : Option LanguageData) (d R : String) (hwf : mapWF s.rooms) (h : s.isMember d R) :
    mapWF (onLanguageChange s sock now data).state.rooms ∧
      (onLanguageChange s sock now data).state.isMember d R := by
  cases data with
  | none => exact ⟨hwf, h⟩
  | some dd =>
    simp only [onLanguageChange]
    split
    · exact ⟨hwf, h⟩
    · rename_i room hroom
      split
      · exact ⟨mapWF_mapReplace _ _ _ hwf,
          isMember_putRoom s _ d R room _ hroom (fun hu => hu) h⟩
      · exact ⟨hwf, h⟩

theorem onCursorChange_keeps (s : Server) (sock : String)
    (data : Option CursorData) (d R : String) (hwf : mapWF s.rooms) (h : s.isMember d R) :
    mapWF (onCursorChange s sock data).state.rooms ∧
      (onCursorChange s sock data).state.isMember d R := by
  cases data with
  | none => exact ⟨hwf, h⟩
  | some dd =>
    simp only [onCursorChange]
    split
    · exact ⟨hwf, h⟩
    · rename_i room hroom
      split
      · exact ⟨mapWF_mapReplace _ _ _ hwf,
          isMember_putRoom s _ d R room _ hroom
            (fun hu => by rw [updateCursor_users]; exact hu) h⟩
      · exact ⟨hwf, h⟩

theorem onChatMessage_state (s : Server) (sock : String) (now : Int) (uuid : String)
    (data : Option ChatData) : (onChatMessage s sock now uuid data).state = s := by
  cases data with
  | none => rfl
  | some dd =>
    simp only [onChatMessage]
    split
    · rfl
    · split <;> rfl

/-- The `disconnect` handler of a socket that is no longer in the table does nothing. -/
theorem onDisconnect_dropped (s : Server) (sock : String) (now : Int) :
    onDisconnect { s with sockets := mapDelete s.sockets sock } sock now =
      Outcome.skip { s with sockets := mapDelete s.sockets sock } := by
  simp only [onDisconnect, Server.socketRooms, mapGet_mapDelete_self, Option.getD_none,
    List.foldl_nil]

theorem mapHas_nil_users (room : Room) (d : String) (hl : room.users.length = 0) :
    mapHas room.users d = false := by
  have : room.users = [] := List.length_eq_zero.1 hl
  rw [this]
  rfl

theorem emptyRoomCheck_keeps (s : Server) (roomId d R : String)
    (hwf : mapWF s.rooms) (h : s.isMember d R) :
    mapWF (emptyRoomCheck s roomId).rooms ∧ (emptyRoomCheck s roomId).isMember d R := by
  unfold emptyRoomCheck
  split
  · exact ⟨hwf, h⟩
  · rename_i room hroom
    split
    · rename_i hl
      refine ⟨mapWF_mapDelete _ _ hwf, ?_⟩
      obtain ⟨x, hx, hd⟩ := h
      have hne : R ≠ roomId := by
        intro heq
        subst heq
        rw [hroom] at hx
        injection hx with hx
        subst hx
        rw [mapHas_nil_users room d hl] at hd
        exact absurd hd (by simp)
      exact ⟨x, by simp only; rw [mapGet_mapDelete_ne _ _ _ hne]; exact hx, hd⟩
    · exact ⟨hwf, h⟩

theorem cleanupInactive_keeps (s : Server) (now : Int) (d R : String)
    (hwf : mapWF s.rooms) (h : s.isMember d R) :
    mapWF (cleanupInactive s now).rooms ∧ (cleanupInactive s now).isMember d R := by
  have hrooms := cleanupInactive_rooms s now hwf
  refine ⟨by rw [hrooms]; exact mapWF_filter _ _ hwf, ?_⟩
  obtain ⟨x, hx, hd⟩ := h
  refine ⟨x, ?_, hd⟩
  rw [hrooms, mapGet_filter _ hwf, hx]
  have hin : Room.inactive x now = false := by
    unfold Room.inactive
    have hl : ¬ x.users.length = 0 := by
      intro hl
      rw [mapHas_nil_users x d hl] at hd
      exact absurd hd (by simp)
    simp [hl]
  simp [hin]

theorem postRoom_keeps (s : Server) (uuid : String) (now : Int) (d R : String)
    (hne : uuid ≠ R) (hwf : mapWF s.rooms) (h : s.isMember d R) :
    mapWF (postRoom s uuid now).rooms ∧ (postRoom s uuid now).isMember d R := by
  refine ⟨mapWF_mapSet _ _ _ hwf, ?_⟩
  obtain ⟨x, hx, hd⟩ := h
  have hget : mapGet (postRoom s uuid now).rooms R = some x := by
    simp only [postRoom]
    rw [mapGet_mapSet_ne _ _ _ _ (fun e => hne e.symm)]
    exact hx
  exact ⟨x, hget, hd⟩

theorem ifConnected_cases (s : Server) (sock : String) (o : Outcome) :
    ifConnected s sock o = o ∨ ifConnected s sock o = Outcome.skip s := by
  unfold ifConnected
  split
  · exact Or.inl rfl
  · exact Or.inr rfl

theorem ifConnected_keeps (s : Server) (sock : String) (o : Outcome) (d R : String)
    (hs : mapWF s.rooms ∧ s.isMember d R)
    (ho : mapWF o.state.rooms ∧ o.state.isMember d R) :
    mapWF (ifConnected s sock o).state.rooms ∧ (ifConnected s sock o).state.isMember d R := by
  rcases ifConnected_cases s sock o with hc | hc <;> rw [hc]
  · exact ho
  · exact hs

/-- No event but a `POST /room` that draws the identifier of `R` takes a member out of
`R`, takes `R` out of `rooms` or puts a key into `rooms` twice. -/
theorem step_keeps (s : Server) (now : Int) (e : Event) (d R : String)
    (hfresh : e.postsRoom R = false) (hwf : mapWF s.rooms) (h : s.isMember d R) :
    mapWF (step s now e).state.rooms ∧ (step s now e).state.isMember d R := by
  cases e with
  | connection sock =>
    simp only [step]
    split
    · exact ⟨hwf, h⟩
    · exact ⟨hwf, isMember_of_rooms_eq _ _ d R rfl h⟩
  | joinRoom sock data =>
    exact ifConnected_keeps s sock _ d R ⟨hwf, h⟩ (onJoinRoom_keeps s sock now data d R hwf h)
  | codeChange sock data =>
    exact ifConnected_keeps s sock _ d R ⟨hwf, h⟩ (onCodeChange_keeps s sock now data d R hwf h)
  | languageChange sock data =>
    exact ifConnected_keeps s sock _ d R ⟨hwf, h⟩
      (onLanguageChange_keeps s sock now data d R hwf h)
  | cursorChange sock data =>
    exact ifConnected_keeps s sock _ d R ⟨hwf, h⟩ (onCursorChange_keeps s sock data d R hwf h)
  | chatMessage sock uuid data =>
    refine ifConnected_keeps s sock _ d R ⟨hwf, h⟩ ?_
    rw [onChatMessage_state]
    exact ⟨hwf, h⟩
  | disconnect sock =>
    refine ifConnected_keeps s sock _ d R ⟨hwf, h⟩ ?_
    rw [onDisconnect_dropped]
    exact ⟨hwf, isMember_of_rooms_eq _ _ d R rfl h⟩
  | emptyRoomTimeout roomId => exact emptyRoomCheck_keeps s roomId d R hwf h
  | cleanupInterval => exact cleanupInactive_keeps s now d R hwf h
  | postRoom uuid =>
    have hne : uuid ≠ R := by simpa [Event.postsRoom] using hfresh
    exact postRoom_keeps s uuid now d R hne hwf h

theorem run_keeps (s : Server) (trace : List (Int × Event)) (d R : String)
    (hfresh : ∀ x ∈ trace, x.2.postsRoom R = false) (hwf : mapWF s.rooms)
    (h : s.isMember d R) :
    mapWF (run s trace).rooms ∧ (run s trace).isMember d R := by
  induction trace generalizing s with
  | nil => exact ⟨hwf, h⟩
  | cons x rest ih =>
    obtain ⟨now, e⟩ := x
    simp only [run]
    obtain ⟨hwf1, h1⟩ :=
      step_keeps s now e d R (hfresh (now, e) (List.mem_cons_self _ _)) hwf h
    exact ih _ (fun y hy => hfresh y (List.mem_cons_of_mem _ hy)) hwf1 h1

theorem onJoinRoom_mapWF (s : Server) (sock : String) (now : Int) (data : Option JoinData)
    (hwf : mapWF s.rooms) : mapWF (onJoinRoom s sock now data).state.rooms := by
  cases data with
  | none => exact hwf
  | some dd =>
    have hwf1 : mapWF (if ¬ mapHas s.rooms dd.roomId = true then
        { s with rooms := mapSet s.rooms dd.roomId (Room.new dd.roomId now) } else s).rooms := by
      split
      · exact mapWF_mapSet _ _ _ hwf
      · exact hwf
    simp only [onJoinRoom]
    split
    · exact hwf1
    · split
      · exact hwf1
      · exact mapWF_mapReplace _ _ _ hwf1

theorem step_mapWF (s : Server) (now : Int) (e : Event) (hwf : mapWF s.rooms) :
    mapWF (step s now e).state.rooms := by
  have hif : ∀ (sock : String) (o : Outcome), mapWF o.state.rooms →
      mapWF (ifConnected s sock o).state.rooms := by
    intro sock o ho
    rcases ifConnected_cases s sock o with hc | hc <;> rw [hc]
    · exact ho
    · exact hwf
  cases e with
  | connection sock =>
    simp only [step]
    split <;> exact hwf
  | joinRoom sock data => exact hif sock _ (onJoinRoom_mapWF s sock now data hwf)
  | codeChange sock data =>
    refine hif sock _ ?_
    cases data with
    | none => exact hwf
    | some dd =>
      simp only [onCodeChange]
      split
      · exact hwf
      · split
        · exact mapWF_mapReplace _ _ _ hwf
        · exact hwf
  | languageChange sock data =>
    refine hif sock _ ?_
    cases data with
    | none => exact hwf
    | some dd =>
      simp only [onLanguageChange]
      split
      · exact hwf
      · split
        · exact mapWF_mapReplace _ _ _ hwf
        · exact hwf
  | cursorChange sock data =>
    refine hif sock _ ?_
    cases data with
    | none => exact hwf
    | some dd =>
      simp only [onCursorChange]
      split
      · exact hwf
      · split
        · exact mapWF_mapReplace _ _ _ hwf
        · exact hwf
  | chatMessage sock uuid data =>
    refine hif sock _ ?_
    rw [onChatMessage_state]
    exact hwf
  | disconnect sock =>
    refine hif sock _ ?_
    rw [onDisconnect_dropped]
    exact hwf
  | emptyRoomTimeout roomId =>
    simp only [step, Outcome.skip, emptyRoomCheck]
    split
    · exact hwf
    · split
      · exact mapWF_mapDelete _ _ hwf
      · exact hwf
  | cleanupInterval =>
    simp only [step, Outcome.skip]
    rw [cleanupInactive_rooms s now hwf]
    exact mapWF_filter _ _ hwf
  | postRoom uuid => exact mapWF_mapSet _ _ _ hwf

theorem run_mapWF (s : Server) (trace : List (Int × Event)) (hwf : mapWF s.rooms) :
    mapWF (run s trace).rooms := by
  induction trace generalizing s with
  | nil => exact hwf
  | cons x rest ih =>
    obtain ⟨now, e⟩ := x
    simp only [run]
    exact ih _ (step_mapWF s now e hwf)

theorem run_append (s : Server) (l1 l2 : List (Int × Event)) :
    run s (l1 ++ l2) = run (run s l1) l2 := by
  induction l1 generalizing s with
  | nil => rfl
  | cons x rest ih =>
    obtain ⟨now, e⟩ := x
    simp only [List.cons_append, run]
    exact ih _

theorem emptyRoomCheck_of_member (s : Server) (d R : String) (h : s.isMember d R) :
    emptyRoomCheck s R = s := by
  obtain ⟨x, hx, hd⟩ := h
  unfold emptyRoomCheck
  have hl : ¬ x.users.length = 0 := by
    intro hl
    rw [mapHas_nil_users x d hl] at hd
    exact absurd hd (by simp)
  simp only [hx, hl, if_false]

theorem step_joinRoom_member (s : Server) (d R : String) (now : Int) (user : Payload)
    (huser : user ≠ .atom .undefined ∧ user ≠ .atom .null)
    (hconn : mapHas s.sockets d = true) :
    (step s now (.joinRoom d (some ⟨R, user⟩))).state.isMember d R := by
  obtain ⟨p, _, _, hadd⟩ :=
    addUser_some ((mapGet s.rooms R).getD (Room.new R now)) d user now huser
  obtain ⟨hget, _⟩ := onJoinRoom_ok s d R now user _ hadd
  simp only [step, ifConnected, hconn, if_true]
  exact ⟨_, hget, by simp [mapHas, mapGet_mapSet_self]⟩

/-- C8: let `c` disconnect at time `t`, and let, after any events, a connected socket `d`
join room `R` with participant info that is neither `undefined` nor `null`. Whatever
events follow, short of a `POST /room` that draws the identifier of `R` again, when the
check of `R` runs it changes nothing: `R` is still in `rooms` and `d` is still its member.
The registry is a `Map`, so its keys are distinct. -/
theorem rejoined_room_survives_delayed_check (s : Server) (c d R : String) (t t1 : Int)
    (user : Payload) (before after : List (Int × Event))
    (hwf : mapWF s.rooms)
    (huser : user ≠ .atom .undefined ∧ user ≠ .atom .null)
    (hconn : mapHas (run s ((t, .disconnect c) :: before)).sockets d = true)
    (hfresh : ∀ x ∈ after, x.2.postsRoom R = false) :
    mapHas (emptyRoomCheck (run s ((t, .disconnect c) :: before ++
      (t1, .joinRoom d (some ⟨R, user⟩)) :: after)) R).rooms R = true ∧
    (emptyRoomCheck (run s ((t, .disconnect c) :: before ++
      (t1, .joinRoom d (some ⟨R, user⟩)) :: after)) R).isMember d R ∧
    emptyRoomCheck (run s ((t, .disconnect c) :: before ++
      (t1, .joinRoom d (some ⟨R, user⟩)) :: after)) R =
      run s ((t, .disconnect c) :: before ++ (t1, .joinRoom d (some ⟨R, user⟩)) :: after) := by
  have hsplit : run s ((t, .disconnect c) :: before ++
      (t1, .joinRoom d (some ⟨R, user⟩)) :: after) =
      run (step (run s ((t, .disconnect c) :: before)) t1
        (.joinRoom d (some ⟨R, user⟩))).state after := by
    rw [run_append]
    rfl
  have hwf0 := run_mapWF s ((t, .disconnect c) :: before) hwf
  have hwf1 := step_mapWF _ t1 (.joinRoom d (some ⟨R, user⟩)) hwf0
  have hmem1 := step_joinRoom_member _ d R t1 user huser hconn
  obtain ⟨_, hmem⟩ := run_keeps _ after d R hfresh hwf1 hmem1
  rw [hsplit, emptyRoomCheck_of_member _ d R hmem]
  obtain ⟨x, hx, hd⟩ := hmem
  exact ⟨(mapHas_eq_true_iff _ _).2 ⟨x, hx⟩, ⟨x, hx, hd⟩, rfl⟩

theorem rejoined_room_survives_delayed_check_witness :
    (mapWF rejoinState.rooms ∧
      mapHas (run rejoinState [(10, .disconnect "c"), (20, .connection "d")]).sockets "d"
        = true) ∧
    mapHas (emptyRoomCheck (run rejoinState ((10, .disconnect "c") :: [(20, .connection "d")] ++
      (21, .joinRoom "d" (some ⟨"R", .obj []⟩)) ::
        [(22, .disconnect "d"), (30, .cleanupInterval)])) "R").rooms "R" = true :=
  ⟨⟨by unfold mapWF; decide, by rfl⟩,
    (rejoined_room_survives_delayed_check rejoinState "c" "d" "R" 10 21 (.obj [])
      [(20, .connection "d")] [(22, .disconnect "d"), (30, .cleanupInterval)]
      (by unfold mapWF; decide) ⟨by decide, by decide⟩ (by rfl) (by decide)).1⟩

/-! ## The periodic cleanup -/

/-- C9: one run of the periodic cleanup at time `now` on a registry (a `Map`, so with
distinct keys) keeps, in order and unchanged, exactly the rooms that have a member or whose
`lastActivity` is at most 24 hours old, and removes exactly the rooms with no member and
`now - lastActivity > 24h`; `socket.rooms` is untouched. -/
theorem cleanup_removes_exactly_idle_empty_rooms (s : Server) (now : Int)
    (hwf : mapWF s.rooms) :
    (cleanupInactive s now).rooms =
      s.rooms.filter (fun e =>
        ! (decide (e.2.users.length = 0) &&
            decide (now - e.2.lastActivity > 24 * 60 * 60 * 1000))) ∧
    (∀ id, mapGet (cleanupInactive s now).rooms id =
      (mapGet s.rooms id).bind (fun room =>
        if room.users.length = 0 ∧ now - room.lastActivity > 24 * 60 * 60 * 1000 then none
        else some room)) ∧
    (cleanupInactive s now).sockets = s.sockets := by
  have hrooms := cleanupInactive_rooms s now hwf
  have hfun : (fun e : String × Room => ! Room.inactive e.2 now) =
      (fun e => ! (decide (e.2.users.length = 0) &&
            decide (now - e.2.lastActivity > 24 * 60 * 60 * 1000))) := by
    funext e
    simp [Room.inactive, inactiveThreshold]
  refine ⟨by rw [hrooms, hfun], ?_, rfl⟩
  intro id
  rw [hrooms, mapGet_filter _ hwf]
  cases hg : mapGet s.rooms id with
  | none => rfl
  | some room =>
    simp only [Option.bind, Room.inactive, inactiveThreshold]
    by_cases h : room.users.length = 0 ∧ now - room.lastActivity > 24 * 60 * 60 * 1000
    · have hb : (decide (room.users.length = 0) &&
          decide (now - room.lastActivity > 24 * 60 * 60 * 1000)) = true := by
        simp only [Bool.and_eq_true, decide_eq_true_eq]
        exact h
      rw [if_pos h]
      simp only [hb, Bool.not_true, Bool.false_eq_true, if_false]
    · have hb : (decide (room.users.length = 0) &&
          decide (now - room.lastActivity > 24 * 60 * 60 * 1000)) = false := by
        rw [Bool.eq_false_iff]
        simpa only [ne_eq, Bool.and_eq_true, decide_eq_true_eq] using h
      rw [if_neg h]
      simp only [hb, Bool.not_false, if_true]

theorem cleanup_removes_exactly_idle_empty_rooms_witness :
    mapWF sweepState.rooms ∧
    mapKeys (cleanupInactive sweepState 90000000).rooms = ["new", "busy"] ∧
    (cleanupInactive sweepState 90000000).rooms =
      sweepState.rooms.filter (fun e =>
        ! (decide (e.2.users.length = 0) &&
            decide ((90000000 : Int) - e.2.lastActivity > 24 * 60 * 60 * 1000))) :=
  ⟨by unfold mapWF; decide, by rfl,
    (cleanup_removes_exactly_idle_empty_rooms sweepState 90000000 (by unfold mapWF; decide)).1⟩

/-! ## Chat -/

/-- C10: in `staleState` connection `c` is a key of the `users` of room `A`. Its
`chat-message` for `A` passes the membership test and is delivered to `a` only: the
sender `c` receives nothing. -/
theorem chat_message_skips_stale_sender :
    staleState.isMember "c" "A" ∧
    ((onChatMessage staleState "c" 9 "m1" (some ⟨"A", .atom (.str "hi")⟩)).sent.map
      Prod.fst) = ["a"] ∧
    received (onChatMessage staleState "c" 9 "m1" (some ⟨"A", .atom (.str "hi")⟩)).sent "c"
      = [] := by
  refine ⟨⟨_, (by rfl : mapGet staleState.rooms "A" = some _), by rfl⟩, by rfl, by rfl⟩

/-! ## Activity timestamps -/

/-- C11: connection `a` joins room `R` at time 1, which sets `lastActivity` to 1. Its
`cursor-change` at time 5 passes the membership test and stores the cursor, but
`lastActivity` of `R` is still 1 afterwards, not 5. -/
theorem cursor_change_keeps_lastActivity :
    Reachable (run Server.init cursorTrace) ∧
    (run Server.init cursorTrace).isMember "a" "R" ∧
    (mapGet (run Server.init (cursorTrace.take 2)).rooms "R").map Room.lastActivity = some 1 ∧
    (mapGet (run Server.init cursorTrace).rooms "R").map Room.cursors =
      some [("a", .obj [("line", .num 3), ("column", .num 7)])] ∧
    (mapGet (run Server.init cursorTrace).rooms "R").map Room.lastActivity = some 1 ∧
    (mapGet (run Server.init cursorTrace).rooms "R").map Room.lastActivity ≠ some 5 := by
  refine ⟨⟨cursorTrace, rfl⟩,
    ⟨_, (by rfl : mapGet (run Server.init cursorTrace).rooms "R" = some _), by rfl⟩,
    by rfl, by rfl, by rfl, by decide⟩

/-! ## Exceptions -/

theorem disconnectRoom_threw (sock : String) (now : Int) (acc : Outcome) (roomId : String) :
    (disconnectRoom sock now acc roomId).threw = acc.threw := by
  unfold disconnectRoom
  split
  · split <;> rfl
  · rfl

theorem disconnect_foldl_threw (sock : String) (now : Int) (l : List String) (acc : Outcome) :
    (l.foldl (disconnectRoom sock now) acc).threw = acc.threw := by
  induction l generalizing acc with
  | nil => rfl
  | cons x rest ih =>
    simp only [List.foldl_cons]
    rw [ih, disconnectRoom_threw]

theorem onDisconnect_threw (s : Server) (sock : String) (now : Int) :
    (onDisconnect s sock now).threw = false :=
  disconnect_foldl_threw sock now _ (Outcome.skip s)

theorem onJoinRoom_threw (s : Server) (c r : String) (now : Int) (user : Payload)
    (huser : user ≠ .atom .undefined ∧ user ≠ .atom .null) :
    (onJoinRoom s c now (some ⟨r, user⟩)).threw = false := by
  obtain ⟨p, _, _, hadd⟩ :=
    addUser_some ((mapGet s.rooms r).getD (Room.new r now)) c user now huser
  obtain ⟨h1, _⟩ := joinRoom_lookup s r now
  simp only [onJoinRoom, h1, hadd]

theorem onCodeChange_threw (s : Server) (sock : String) (now : Int) (d : CodeData) :
    (onCodeChange s sock now (some d)).threw = false := by
  simp only [onCodeChange]
  split
  · rfl
  · split <;> rfl

theorem onLanguageChange_threw (s : Server) (sock : String) (now : Int) (d : LanguageData) :
    (onLanguageChange s sock now (some d)).threw = false := by
  simp only [onLanguageChange]
  split
  · rfl
  · split <;> rfl

theorem onCursorChange_threw (s : Server) (sock : String) (d : CursorData) :
    (onCursorChange s sock (some d)).threw = false := by
  simp only [onCursorChange]
  split
  · rfl
  · split <;> rfl

theorem onChatMessage_threw (s : Server) (sock : String) (now : Int) (uuid : String)
    (d : ChatData) : (onChatMessage s sock now uuid (some d)).threw = false := by
  simp only [onChatMessage]
  split
  · rfl
  · split <;> rfl

theorem invalid_event_outcomes (s : Server) (c r : String) (now : Int) (uuid : String)
    (code changes language cursor message : Payload)
    (h : mapHas s.rooms r = false ∨
      ∃ room, mapGet s.rooms r = some room ∧ mapHas room.users c = false) :
    onCodeChange s c now (some ⟨r, code, changes⟩) = Outcome.skip s ∧
    onLanguageChange s c now (some ⟨r, language⟩) = Outcome.skip s ∧
    onCursorChange s c (some ⟨r, cursor⟩) = Outcome.skip s ∧
    onChatMessage s c now uuid (some ⟨r, message⟩) = Outcome.skip s := by
  rcases h with h | ⟨room, hroom, hmem⟩
  · have hn : mapGet s.rooms r = none := (mapHas_eq_false_iff _ _).1 h
    simp [onCodeChange, onLanguageChange, onCursorChange, onChatMessage, hn]
  · simp [onCodeChange, onLanguageChange, onCursorChange, onChatMessage, hroom, hmem]

/-- C12 (as amended): a handler whose event carries a payload object with a string room id
completes without throwing, for `join-room` provided the participant info is neither
`undefined` nor `null`; the `disconnect` handler, which takes no payload, never throws,
whatever `socket.rooms` holds when it starts. A `code-change`,
`language-change`, `cursor-change` or `chat-message` for an unknown room or from a
connection that is not a member ends as a no-op: same state, no delivery, no timer, no
exception. -/
theorem handlers_with_payload_do_not_throw (s : Server) (c r : String) (now : Int)
    (uuid : String) (user code changes language cursor message : Payload)
    (huser : user ≠ .atom .undefined ∧ user ≠ .atom .null) :
    (onJoinRoom s c now (some ⟨r, user⟩)).threw = false ∧
    (onCodeChange s c now (some ⟨r, code, changes⟩)).threw = false ∧
    (onLanguageChange s c now (some ⟨r, language⟩)).threw = false ∧
    (onCursorChange s c (some ⟨r, cursor⟩)).threw = false ∧
    (onChatMessage s c now uuid (some ⟨r, message⟩)).threw = false ∧
    (onDisconnect s c now).threw = false ∧
    ((mapHas s.rooms r = false ∨
        ∃ room, mapGet s.rooms r = some room ∧ mapHas room.users c = false) →
      onCodeChange s c now (some ⟨r, code, changes⟩) =
        { state := s, sent := [], timers := [], threw := false } ∧
      onLanguageChange s c now (some ⟨r, language⟩) =
        { state := s, sent := [], timers := [], threw := false } ∧
      onCursorChange s c (some ⟨r, cursor⟩) =
        { state := s, sent := [], timers := [], threw := false } ∧
      onChatMessage s c now uuid (some ⟨r, message⟩) =
        { state := s, sent := [], timers := [], threw := false }) :=
  ⟨onJoinRoom_threw s c r now user huser, onCodeChange_threw s c now _,
    onLanguageChange_threw s c now _, onCursorChange_threw s c _,
    onChatMessage_threw s c now uuid _, onDisconnect_threw s c now,
    fun h => invalid_event_outcomes s c r now uuid code changes language cursor message h⟩

theorem handlers_with_payload_do_not_throw_witness :
    ((Payload.obj [("name", .str "Bob")] ≠ .atom .undefined ∧
      Payload.obj [("name", .str "Bob")] ≠ .atom .null) ∧
    (onJoinRoom oneRoomState "b" 5 (some ⟨"R", .obj [("name", .str "Bob")]⟩)).threw = false ∧
    (onCodeChange oneRoomState "b" 5
      (some ⟨"R", .atom (.str "x"), .atom .undefined⟩)).threw = false) :=
  ⟨⟨by decide, by decide⟩,
    (handlers_with_payload_do_not_throw oneRoomState "b" "R" 5 "id-1"
      (.obj [("name", .str "Bob")]) (.atom (.str "x")) (.atom .undefined)
      (.atom (.str "python")) (.obj [("line", .num 1)]) (.atom (.str "hi"))
      ⟨by decide, by decide⟩).1,
    (handlers_with_payload_do_not_throw oneRoomState "b" "R" 5 "id-1"
      (.obj [("name", .str "Bob")]) (.atom (.str "x")) (.atom .undefined)
      (.atom (.str "python")) (.obj [("line", .num 1)]) (.atom (.str "hi"))
      ⟨by decide, by decide⟩).2.1⟩

/-- C12: a `code-change`, `language-change`, `cursor-change` or `chat-message` that
carries no payload object throws in the destructuring, also when it comes from the member
`a`; a `join-room` without payload throws as well, and a `join-room` for the unknown room
`S` whose participant info is `undefined` throws after the room `S` has been created, so
it does not end as a no-op. -/
theorem events_without_payload_throw :
    (onCodeChange oneRoomState "a" 5 none).threw = true ∧
    (onLanguageChange oneRoomState "a" 5 none).threw = true ∧
    (onCursorChange oneRoomState "a" none).threw = true ∧
    (onChatMessage oneRoomState "a" 5 "id-1" none).threw = true ∧
    (onJoinRoom oneRoomState "b" 5 none).threw = true ∧
    (onJoinRoom oneRoomState "b" 5 (some ⟨"S", .atom .undefined⟩)).threw = true ∧
    mapHas oneRoomState.rooms "S" = false ∧
    mapHas (onJoinRoom oneRoomState "b" 5 (some ⟨"S", .atom .undefined⟩)).state.rooms "S"
      = true := by
  refine ⟨by rfl, by rfl, by rfl, by rfl, by rfl, by rfl, by rfl, by rfl⟩

/-! ## Identity fields of the cursor list -/

/-- C13: in the reachable state `forgedCursorState` connection `c` is a member of room `R`
and has stored a cursor whose payload has fields `userId` and `user`. The entry of
`getCursorsArray` for that cursor has `userId` equal to `a`, not `c`, and `user` equal to
`null`, not the record of `c`; this list is what a connection `b` that joins next receives
in its `room-state` snapshot. -/
theorem cursor_payload_overrides_identity_fields :
    Reachable forgedCursorState ∧
    (mapGet forgedCursorState.rooms "R").map (fun room => mapGet room.users "c") =
      some (some ⟨"c", .str "User 2", .str "#4ECDC4", 3⟩) ∧
    (mapGet forgedCursorState.rooms "R").map (fun room => mapKeys room.cursors) =
      some ["c"] ∧
    (mapGet forgedCursorState.rooms "R").map Room.getCursorsArray =
      some [[("userId", .atom (.str "a")), ("user", .atom .null), ("line", .atom (.num 1))]] ∧
    (received (runSent forgedCursorState
        [(5, .connection "b"), (6, .joinRoom "b" (joinData "R"))]) "b").map
      (fun ev => match ev with
        | .roomState _ _ _ cursors => cursors
        | _ => []) =
      [[[("userId", .atom (.str "a")), ("user", .atom .null), ("line", .atom (.num 1))]]] := by
  refine ⟨⟨forgedCursorTrace, rfl⟩, by rfl, by rfl, by rfl, by rfl⟩

end RealTimeCodeEditor
